import Mathlib

/-!
# Verification of the `src-to-kb` core against its specification

Shallow embedding of the chunker (`src/kb-generator.js`), the keyword search
and answer synthesizer (`src/search.js`), the answer-mode filter
(`src/modes.js`) and the remote-delegate retry loop
(`src/external-server-service.js`), together with proofs and refutations of
the specification's claims about them.

The source is JavaScript.  Strings are modelled as Lean `String`s (JS UTF-16
code units are modelled as characters; every string computation in the
embedded code is per-character, so the boundary arithmetic is unchanged).
JS `Number` arithmetic on sizes and scores is integer-valued in the embedded
code and is modelled on `Nat`/`Int`; the one floating-point division
(`Math.ceil(overlap / (currentSize / length))` in the chunker) is modelled as
exact rational division, noted at its definition.
-/

namespace SrcToKB

/-! ## JavaScript string primitives -/

/-- Character class of the ECMAScript regex `\s` (whitespace), as used by
`query.split(/\s+/)` and `snippet.replace(/\s+/g, ' ')` in `src/search.js`
(main ASCII whitespace characters). -/
def jsIsSpace (c : Char) : Bool :=
  c == ' ' || c == '\t' || c == '\n' || c == '\r' || c == '\x0b' || c == '\x0c'

/-- Character class of the ECMAScript regex `[\n\r\t]`, used by
`ctx.replace(/[\n\r\t]+/g, ' ')` in `generateAnswer`. -/
def jsIsNRT (c : Char) : Bool :=
  c == '\n' || c == '\r' || c == '\t'

/-- Character class of the ECMAScript regex `\w` (`[A-Za-z0-9_]`); `\W` is its
complement.  Used by `snippet.replace(/^\W+/, '')` and `replace(/\W+$/, '')`. -/
def jsIsWordChar (c : Char) : Bool :=
  c.isAlphanum || c == '_'

/-- `String.prototype.toLowerCase()` (per-character ASCII lowering). -/
def jsToLower (s : String) : String :=
  String.mk (s.toList.map Char.toLower)

/-- Worker for `jsIncludes`: does the pattern occur in the character list? -/
def containsAux (pat : List Char) : List Char → Bool
  | [] => pat.isEmpty
  | c :: cs => pat.isPrefixOf (c :: cs) || containsAux pat cs

/-- `String.prototype.includes(sub)`. -/
def jsIncludes (s sub : String) : Bool :=
  containsAux sub.toList s.toList

/-- Worker for `jsIndexOf`: index of the first occurrence of the pattern. -/
def indexOfAux (pat : List Char) : List Char → Option Nat
  | [] => if pat.isEmpty then some 0 else none
  | c :: cs =>
    if pat.isPrefixOf (c :: cs) then some 0
    else (indexOfAux pat cs).map (· + 1)

/-- `String.prototype.indexOf(sub)`; `none` models the return value `-1`. -/
def jsIndexOf (s sub : String) : Option Nat :=
  indexOfAux sub.toList s.toList

/-- `String.prototype.substring(a, b)` for `a ≤ b` (the only way the source
calls it): characters `a` to `b-1`, clamped to the string's bounds. -/
def jsSubstring (s : String) (a b : Nat) : String :=
  String.mk ((s.toList.drop a).take (b - a))

/-- `String.prototype.endsWith(sfx)`. -/
def jsEndsWith (s sfx : String) : Bool :=
  sfx.toList.isSuffixOf s.toList

/-- `String.prototype.trim()`. -/
def jsTrim (s : String) : String :=
  String.mk (((s.toList.dropWhile jsIsSpace).reverse.dropWhile jsIsSpace).reverse)

/-- Worker for `collapseRuns`: the flag records whether the previous
character belonged to a run (in which case further run characters are
dropped). -/
def collapseGo (p : Char → Bool) (r : Char) : Bool → List Char → List Char
  | _, [] => []
  | inRun, c :: cs =>
    if p c then
      if inRun then collapseGo p r true cs
      else r :: collapseGo p r true cs
    else c :: collapseGo p r false cs

/-- `str.replace(/X+/g, r)` for a character class `X`: every maximal run of
characters satisfying `p` is replaced by the single character `r`. -/
def collapseRuns (p : Char → Bool) (r : Char) (l : List Char) : List Char :=
  collapseGo p r false l

/-- `snippet.replace(/\s+/g, ' ')` from `src/search.js` line 78. -/
def jsCollapseWs (s : String) : String :=
  String.mk (collapseRuns jsIsSpace ' ' s.toList)

/-- `ctx.replace(/[\n\r\t]+/g, ' ')` from `src/search.js` line 300. -/
def jsCollapseNRT (s : String) : String :=
  String.mk (collapseRuns jsIsNRT ' ' s.toList)

/-- `.replace(/^\W+/, '').replace(/\W+$/, '')` from `src/search.js`
lines 79-80: strip non-word characters from both ends. -/
def jsStripNonWord (s : String) : String :=
  String.mk (((s.toList.dropWhile (fun c => !jsIsWordChar c)).reverse.dropWhile
      (fun c => !jsIsWordChar c)).reverse)

/-- Worker for `jsSplitWs`: accumulates the current piece (reversed); the
flag records whether the previous character was whitespace (characters inside
a whitespace run are skipped without emitting further pieces). -/
def splitWsGo : Bool → List Char → List Char → List String
  | _, acc, [] => [String.mk acc.reverse]
  | prevWs, acc, c :: cs =>
    if jsIsSpace c then
      if prevWs then splitWsGo true acc cs
      else String.mk acc.reverse :: splitWsGo true [] cs
    else splitWsGo false (c :: acc) cs

/-- `String.prototype.split(/\s+/)` (ECMAScript semantics): pieces between
maximal whitespace runs, keeping the empty leading/trailing pieces, and
`"".split(/\s+/) = [""]` (the regex does not match the empty string). -/
def jsSplitWs (s : String) : List String :=
  splitWsGo false [] s.toList

/-- Worker for `jsCountMatchesLit`: count of non-overlapping occurrences of
the non-empty pattern `p :: ps`, scanning left to right; the first argument
counts characters still to be skipped past the end of the last match. -/
def countLitGo (p : Char) (ps : List Char) : Nat → List Char → Nat
  | _, [] => 0
  | skip + 1, _ :: cs => countLitGo p ps skip cs
  | 0, c :: cs =>
    if (p :: ps).isPrefixOf (c :: cs) then 1 + countLitGo p ps ps.length cs
    else countLitGo p ps 0 cs

/-- `(content.match(new RegExp(pat, 'gi')) || []).length` for a pattern `pat`
free of regex metacharacters (so the regex denotes the literal string `pat`):
the number of non-overlapping occurrences, scanning left to right with the
global flag's `lastIndex` advance; the empty pattern matches at every position
including the end, giving `content.length + 1`. -/
def jsCountMatchesLit (content pat : String) : Nat :=
  match pat.toList with
  | [] => content.length + 1
  | p :: ps => countLitGo p ps 0 content.toList

/-- The ECMAScript regex metacharacters. -/
def jsRegexMeta (c : Char) : Bool :=
  ['\\', '^', '$', '.', '*', '+', '?', '(', ')', '[', ']', '{', '}', '|'].contains c

/-- Models whether `new RegExp(pat, 'gi')` succeeds (`src/search.js` line 65
feeds a raw search keyword in as the pattern).  A pattern free of regex
metacharacters always compiles and denotes the literal string.  Patterns
containing a metacharacter are conservatively modelled as failing to compile:
the patterns the claims exercise — a lone `(`, `+` or `*` — are indeed
invalid ECMAScript patterns (unmatched group / nothing to repeat), on which
the constructor throws a `SyntaxError`. -/
def jsPatternOk (pat : String) : Bool :=
  pat.toList.all (fun c => !jsRegexMeta c)

/-! ## The chunker (`createChunks`, `src/kb-generator.js` lines 363-417) -/

/-- The chunk record built by `createChunks`.  `startLine`/`endLine` are the
0-based inclusive line indices the chunk reports. -/
structure Chunk where
  id : String
  index : Nat
  content : String
  startLine : Nat
  endLine : Nat
  size : Nat
deriving DecidableEq, Repr

/-- `lines.join('\n')`. -/
def joinNL (ls : List String) : String :=
  String.intercalate "\n" ls

/-- `⌈a / b⌉` on naturals. -/
def natCeilDiv (a b : Nat) : Nat :=
  (a + b - 1) / b

/-- `Math.ceil(overlap / (currentSize / currentChunk.length))` from
`src/kb-generator.js` line 389, with the IEEE-double division modelled as
exact rational division: `⌈overlap * len / size⌉`. -/
def overlapLineCount (overlap len size : Nat) : Nat :=
  natCeilDiv (overlap * len) size

/-- The loop of `createChunks` (`src/kb-generator.js` lines 374-416).
State: remaining lines, the current line index `i`, the buffer `currentChunk`,
`currentSize`, `chunkIndex`, `startLine`.  On flush, the retained overlap
buffer is `currentChunk.slice(max(0, len - overlapLines))` (`Nat` subtraction
models the `max(0, ·)`), the retained size is the joined length, and the new
start line is `i - (newLength - 1)` — computed, as in the source, *before*
line `i` is pushed; in exact integer arithmetic this is `i + 1 - newLength`. -/
def chunksGo (chunkSize overlap : Nat) (documentId : String) :
    List String → Nat → List String → Nat → Nat → Nat → List Chunk
  | [], i, currentChunk, currentSize, chunkIndex, startLine =>
    if currentChunk.isEmpty then []
    else
      [⟨documentId ++ "_chunk_" ++ toString chunkIndex, chunkIndex,
        joinNL currentChunk, startLine, i - 1, currentSize⟩]
  | line :: rest, i, currentChunk, currentSize, chunkIndex, startLine =>
    let lineSize := line.length + 1
    if currentSize + lineSize > chunkSize ∧ 0 < currentChunk.length then
      let flushed : Chunk :=
        ⟨documentId ++ "_chunk_" ++ toString chunkIndex, chunkIndex,
         joinNL currentChunk, startLine, i - 1, currentSize⟩
      let overlapLines := overlapLineCount overlap currentChunk.length currentSize
      let overlapStart := currentChunk.length - overlapLines
      let newChunk := currentChunk.drop overlapStart
      let newSize := (joinNL newChunk).length
      let newStart := i + 1 - newChunk.length
      flushed :: chunksGo chunkSize overlap documentId rest (i + 1)
        (newChunk ++ [line]) (newSize + lineSize) (chunkIndex + 1) newStart
    else
      chunksGo chunkSize overlap documentId rest (i + 1)
        (currentChunk ++ [line]) (currentSize + lineSize) chunkIndex startLine

/-- Worker for `jsSplitNL`: accumulates the current line (reversed). -/
def splitNLAux : List Char → List Char → List String
  | acc, [] => [String.mk acc.reverse]
  | acc, c :: cs =>
    if c = '\n' then String.mk acc.reverse :: splitNLAux [] cs
    else splitNLAux (c :: acc) cs

/-- `content.split('\n')` (ECMAScript semantics): the pieces between newline
characters, keeping empty pieces; the empty string splits to `[""]`, so the
result is never the empty list. -/
def jsSplitNL (s : String) : List String :=
  splitNLAux [] s.toList

/-- `createChunks(content, documentId)` from `src/kb-generator.js`, with the
configured `chunkSize` and `overlap` budgets as parameters. -/
def createChunks (content : String) (chunkSize overlap : Nat)
    (documentId : String) : List Chunk :=
  chunksGo chunkSize overlap documentId (jsSplitNL content) 0 [] 0 0 0

/-! ## The query engine (`search`, `src/search.js` lines 45-112)

The corpus (`KnowledgeBaseSearch`'s `documents` and `chunks` maps) is
modelled as association lists in insertion order, matching JS `Map`
iteration order. -/

/-- A loaded document record; `language` is `document.metadata.language`
(the empty string models a missing/null language). -/
structure Document where
  id : String
  relativePath : String
  language : String
deriving DecidableEq, Repr

/-- The in-memory corpus: `this.documents` (id → document) and `this.chunks`
(document id → chunk list), each in insertion order. -/
structure KnowledgeBase where
  documents : List (String × Document)
  chunks : List (String × List Chunk)
deriving Repr

/-- The result record pushed by `search` (`src/search.js` lines 90-101).
`matchesList` models the source field `matches` (renamed: `matches` is Lean
notation), which is always `[]` in the source — the variable is never
filled. -/
structure SearchResult where
  documentId : String
  documentPath : String
  documentLang : String
  chunkId : String
  score : Nat
  lines : String
  matchesList : List String
  contextSnippets : List String
  fullContent : String
  preview : String
deriving DecidableEq, Repr

/-- One iteration of `keywords.forEach` (`src/search.js` lines 61-87) over the
state `(score, contextSnippets)`.  The regex construction
`new RegExp(keyword, 'gi')` throws on an invalid pattern, modelled by the
`Except` error; `index !== -1` always holds under the `includes` guard but the
`none` arm mirrors the source's check.  The snippet window is computed on the
lowercased content but cut from the raw content (same length, per-character
lowering). -/
def scoreKeyword (chunkContent : String) (st : Nat × List String)
    (keyword : String) : Except String (Nat × List String) :=
  let content := jsToLower chunkContent
  if jsIncludes content keyword then
    if jsPatternOk keyword then
      let count := jsCountMatchesLit content keyword
      let score := st.1 + count
      match jsIndexOf content keyword with
      | some index =>
        let start := index - 80
        let stop := min content.length (index + keyword.length + 80)
        let snippet := jsTrim (jsSubstring chunkContent start stop)
        let cleanSnippet := jsStripNonWord (jsCollapseWs snippet)
        if st.2.any (fun s => jsIncludes s (jsSubstring cleanSnippet 0 30)) then
          .ok (score, st.2)
        else
          .ok (score, st.2 ++ [cleanSnippet])
      | none => .ok (score, st.2)
    else
      .error ("SyntaxError: Invalid regular expression: " ++ keyword)
  else
    .ok st

/-- The full keyword loop for one chunk, starting from score `0` and no
snippets. -/
def scoreLoop (chunkContent : String) :
    List String → Nat × List String → Except String (Nat × List String)
  | [], st => .ok st
  | kw :: kws, st =>
    match scoreKeyword chunkContent st kw with
    | .ok st' => scoreLoop chunkContent kws st'
    | .error e => .error e

/-- The object pushed into `results` for a scoring chunk
(`src/search.js` lines 90-101). -/
def mkResult (docId : String) (doc : Document) (chunk : Chunk) (score : Nat)
    (snips : List String) : SearchResult where
  documentId := docId
  documentPath := doc.relativePath
  documentLang := doc.language
  chunkId := chunk.id
  score := score
  lines := toString chunk.startLine ++ "-" ++ toString chunk.endLine
  matchesList := []
  contextSnippets := snips
  fullContent := chunk.content
  preview := jsSubstring chunk.content 0 200

/-- `docChunks.forEach(chunk => ...)`: score each chunk, pushing a result when
the score is positive. -/
def scanChunks (keywords : List String) (docId : String) (doc : Document) :
    List Chunk → List SearchResult → Except String (List SearchResult)
  | [], acc => .ok acc
  | c :: cs, acc =>
    match scoreLoop c.content keywords (0, []) with
    | .error e => .error e
    | .ok (score, snips) =>
      if 0 < score then
        scanChunks keywords docId doc cs (acc ++ [mkResult docId doc c score snips])
      else
        scanChunks keywords docId doc cs acc

/-- `this.chunks.forEach((docChunks, docId) => ...)`: skip chunk lists whose
document is missing, otherwise scan the chunks. -/
def scanCorpus (docs : List (String × Document)) (keywords : List String) :
    List (String × List Chunk) → List SearchResult →
    Except String (List SearchResult)
  | [], acc => .ok acc
  | (docId, docChunks) :: rest, acc =>
    match docs.lookup docId with
    | none => scanCorpus docs keywords rest acc
    | some doc =>
      match scanChunks keywords docId doc docChunks acc with
      | .error e => .error e
      | .ok acc' => scanCorpus docs keywords rest acc'

/-- The scan phase of `search` (everything before the sort): lowercase the
query, split it on whitespace runs, and score every chunk of the corpus. -/
def searchScan (kb : KnowledgeBase) (query : String) :
    Except String (List SearchResult) :=
  scanCorpus kb.documents (jsSplitWs (jsToLower query)) kb.chunks []

/-- The order used by `results.sort((a, b) => b.score - a.score)`: `a` may
precede `b` iff the comparator is `≤ 0`, i.e. `b.score ≤ a.score`. -/
def resultLE (a b : SearchResult) : Bool :=
  Nat.ble b.score a.score

/-- `results.sort((a, b) => b.score - a.score)`.  ECMAScript requires
`Array.prototype.sort` to be stable, and this comparator is a consistent
total preorder (score, descending), so the result is the unique stable
descending-by-score reordering — `List.mergeSort` with the order above. -/
def sortResults (rs : List SearchResult) : List SearchResult :=
  rs.mergeSort resultLE

/-- `options.limit || 10`: the limit actually applied (`0` models a missing
or zero `limit` option, both falsy in JS). -/
def effLimit (limit : Nat) : Nat :=
  if limit = 0 then 10 else limit

/-- `search(query, options)` from `src/search.js` lines 45-112: scan, sort by
score descending (stably), truncate to the limit.  An `Except` error models
the uncaught `SyntaxError` thrown by `new RegExp` on an invalid keyword. -/
def search (kb : KnowledgeBase) (query : String) (limit : Nat) :
    Except String (List SearchResult) :=
  match searchScan kb query with
  | .error e => .error e
  | .ok results => .ok ((sortResults results).take (effLimit limit))

/-! ## The answer synthesizer (`generateAnswer`, `src/search.js` lines 114-335) -/

/-- An evidence entry of the common return value
(`{file, lines, context}`, `src/search.js` lines 329-333). -/
structure Evidence where
  file : String
  lines : String
  context : String
deriving DecidableEq, Repr

/-- An evidence entry of the language-support branch's return value
(`{file, language}`, `src/search.js` lines 281-284). -/
structure LangEvidence where
  file : String
  language : String
deriving DecidableEq, Repr

/-- The value returned by `generateAnswer`.  The JS object shape differs per
branch; fields absent from a branch's object are `none`.  `confidence` is
exact rational arithmetic for the source's `Math.min(score / 50, 1)`. -/
structure Answer where
  answer : String
  confidence : ℚ
  totalMatches : Option Nat := none
  topFiles : Option (List String) := none
  languages : Option (List String) := none
  evidence : Option (List Evidence) := none
  evidenceLang : Option (List LangEvidence) := none
deriving DecidableEq, Repr

/-- `[...new Set(xs)]`: deduplicate keeping first occurrences (JS `Set`
preserves insertion order). -/
def jsSetDedup (xs : List String) : List String :=
  xs.foldl (fun acc x => if acc.contains x then acc else acc ++ [x]) []

/-- The `languages` set of `generateAnswer` (lines 136-144): the distinct
truthy `documentLang` values across results, in first-seen order. -/
def languagesOf (rs : List SearchResult) : List String :=
  jsSetDedup (rs.filterMap fun r =>
    if r.documentLang = "" then none else some r.documentLang)

/-- `path.extname(p)` (Node): the extension of the basename, from its last
dot; a basename without a dot, or with the dot in leading position, has
extension `""`. -/
def jsExtname (p : String) : String :=
  let base := (p.toList.reverse.takeWhile (fun c => c != '/')).reverse
  let afterDot := (base.reverse.takeWhile (fun c => c != '.')).reverse
  if afterDot.length = base.length then ""
  else if base.length - afterDot.length - 1 = 0 then ""
  else String.mk ('.' :: afterDot)

/-- `Object.keys(fileTypes)[0]` (line 314): object string keys preserve
insertion order, so the first key is the extension of the first result. -/
def primaryExtOf (rs : List SearchResult) : String :=
  match rs with
  | [] => ""
  | r :: _ => jsExtname r.documentPath

/-- `generateAnswer(query, searchResults)` from `src/search.js`
lines 114-335.  The branch cascade is in source order: password-reset, then
login/auth, then api/endpoint/route, then database/model/schema, then
component/ui/frontend, then language/support (which alone early-returns with
confidence `0.9`), then the generic template.  The local `isQuestion`
(lines 124-132) is computed but never used in this version of the function
and is omitted. -/
def generateAnswer (query : String) (searchResults : List SearchResult) : Answer :=
  match searchResults with
  | [] =>
    { answer := "I couldn't find any relevant information about that in the knowledge base."
      confidence := 0 }
  | topResult :: _ =>
    let ql := jsToLower query
    let languages := languagesOf searchResults
    let relevantFiles := jsSetDedup ((searchResults.take 5).map (·.documentPath))
    let confidence : ℚ := min ((topResult.score : ℚ) / 50) 1
    let allContent := joinNL ((searchResults.take 3).map fun r =>
      if r.fullContent = "" then r.preview else r.fullContent)
    let contexts := ((searchResults.take 3).map (·.contextSnippets)).flatten
    let evidence3 : List Evidence := (searchResults.take 3).map fun r =>
      { file := r.documentPath
        lines := r.lines
        context := match r.contextSnippets with
          | [] => r.preview
          | s :: _ => if s = "" then r.preview else s }
    let common : String → Answer := fun a =>
      { answer := a
        confidence := confidence
        totalMatches := some searchResults.length
        topFiles := some relevantFiles
        evidence := some evidence3 }
    if jsIncludes ql "password reset" || jsIncludes ql "reset password" ||
        jsIncludes ql "forgot password" then
      let resetFiles := searchResults.filter fun r =>
        jsIncludes (jsToLower r.documentPath) "auth" ||
        jsIncludes (jsToLower r.documentPath) "password" ||
        jsIncludes (jsToLower r.documentPath) "reset" ||
        jsIncludes (jsToLower r.documentPath) "login"
      match resetFiles with
      | authFile :: _ =>
        let componentFiles := resetFiles.filter fun r =>
          jsIncludes r.documentPath "component"
        common ("Password reset functionality can be found in the authentication module:\n\n" ++
          "📁 **Primary location**: " ++ authFile.documentPath ++ "\n" ++
          "📍 Lines: " ++ authFile.lines ++ "\n\n" ++
          (if jsIncludes allContent "/reset-password" ||
              jsIncludes allContent "/forgot-password" then
            "🔗 **Endpoint**: The password reset endpoint appears to be configured at \"/reset-password\" or \"/forgot-password\"\n\n"
          else "") ++
          (match componentFiles with
           | cf :: _ => "🎨 **UI Components**: Password reset UI is in " ++ cf.documentPath ++ "\n\n"
           | [] => "") ++
          "💡 **How it works**: The password reset flow typically involves:\n" ++
          "1. User requests a password reset link\n" ++
          "2. System sends an email with a reset token\n" ++
          "3. User clicks the link and enters a new password\n" ++
          "4. System validates the token and updates the password\n\n" ++
          "📂 **Related files**: " ++ String.intercalate ", " (relevantFiles.take 3))
      | [] =>
        common ("I couldn't find specific password reset implementation, but check these auth-related files:\n" ++
          "📂 " ++ String.intercalate ", " (relevantFiles.take 3) ++ "\n\n" ++
          "💡 You might need to implement password reset functionality or it may be handled by an external service.")
    else if jsIncludes ql "login" || jsIncludes ql "authentication" ||
        jsIncludes ql "auth" then
      let authFiles := searchResults.filter fun r =>
        jsIncludes (jsToLower r.documentPath) "auth" ||
        jsIncludes (jsToLower r.documentPath) "login"
      match authFiles with
      | af :: _ =>
        common ("Authentication is implemented in:\n\n" ++
          "📁 **Main auth module**: " ++ af.documentPath ++ "\n" ++
          "📍 Lines: " ++ af.lines ++ "\n\n" ++
          (if jsIncludes allContent "jwt" || jsIncludes allContent "JWT" then
            "🔐 **Method**: Using JWT (JSON Web Tokens) for authentication\n"
          else "") ++
          (if jsIncludes allContent "oauth" || jsIncludes allContent "OAuth" then
            "🔑 **OAuth**: OAuth integration detected for social login\n"
          else "") ++
          "\n📂 **Related files**: " ++ String.intercalate ", " (relevantFiles.take 3))
      | [] => common ""
    else if jsIncludes ql "api" || jsIncludes ql "endpoint" ||
        jsIncludes ql "route" then
      let apiFiles := searchResults.filter fun r =>
        jsIncludes r.documentPath "api" ||
        jsIncludes r.documentPath "route" ||
        jsIncludes r.documentPath "controller"
      common ("API endpoints and routes found in:\n\n" ++
        (if apiFiles.isEmpty then
          "📂 " ++ String.intercalate "\n📂 " (relevantFiles.take 3) ++ "\n"
        else
          String.join ((apiFiles.take 3).map fun f =>
            "📁 " ++ f.documentPath ++ " (lines " ++ f.lines ++ ")\n")) ++
        "\n💡 Look for route definitions, API handlers, or controller methods in these files.")
    else if jsIncludes ql "database" || jsIncludes ql "model" ||
        jsIncludes ql "schema" then
      let dbFiles := searchResults.filter fun r =>
        jsIncludes r.documentPath "model" ||
        jsIncludes r.documentPath "schema" ||
        jsIncludes r.documentPath "database" ||
        jsIncludes r.documentPath "entity"
      common ("Database and data model information:\n\n" ++
        (if dbFiles.isEmpty then ""
         else "📊 **Data models found in**:\n" ++
           String.join ((dbFiles.take 3).map fun f => "  • " ++ f.documentPath ++ "\n")) ++
        "\n📂 **All relevant files**: " ++ String.intercalate ", " (relevantFiles.take 3))
    else if jsIncludes ql "component" || jsIncludes ql "ui" ||
        jsIncludes ql "frontend" then
      let componentFiles := searchResults.filter fun r =>
        jsIncludes r.documentPath "component" ||
        jsIncludes r.documentPath "view" ||
        jsIncludes r.documentPath "page" ||
        jsEndsWith r.documentPath ".tsx" ||
        jsEndsWith r.documentPath ".jsx"
      common ("UI components and frontend code:\n\n" ++
        (if componentFiles.isEmpty then ""
         else "🎨 **Components found in**:\n" ++
           String.join ((componentFiles.take 4).map fun f => "  • " ++ f.documentPath ++ "\n")) ++
        "\n💡 These files contain React/Vue/Angular components and UI logic.")
    else if jsIncludes ql "language" || jsIncludes ql "support" then
      if languages.isEmpty then
        common ""
      else
        { answer := "Yes! Based on the codebase, this system supports " ++
            toString languages.length ++ " programming languages including: " ++
            String.intercalate ", " (languages.take 5) ++
            (if 5 < languages.length then ", and more" else "") ++
            ". The code processes files in multiple languages for knowledge base generation."
          confidence := 9 / 10
          languages := some languages
          evidenceLang := some ((searchResults.take 3).map fun r =>
            { file := r.documentPath, language := r.documentLang }) }
    else
      let meaningfulContexts := contexts.filter fun c => c ≠ "" ∧ 20 < c.length
      common ("Based on your search for \"" ++ query ++ "\", here's what I found:\n\n" ++
        (if meaningfulContexts.isEmpty then ""
         else "📝 **Key findings**:\n" ++
           String.join ((meaningfulContexts.take 2).enum.map fun p =>
             let cleanContext := jsTrim (jsCollapseNRT p.2)
             let shortContext :=
               if 150 < cleanContext.length then jsSubstring cleanContext 0 150 ++ "..."
               else cleanContext
             toString (p.1 + 1) ++ ". " ++ shortContext ++ "\n") ++ "\n") ++
        "📁 **Found in " ++ toString searchResults.length ++ " location" ++
        (if 1 < searchResults.length then "s" else "") ++ "**:\n" ++
        String.join ((relevantFiles.take 4).map fun f => "  • " ++ f ++ "\n") ++
        (let primaryE := primaryExtOf searchResults
         if primaryE = ".js" ∨ primaryE = ".ts" ∨ primaryE = ".jsx" ∨ primaryE = ".tsx" then
           "\n💡 These are " ++ primaryE ++ " files containing JavaScript/TypeScript code."
         else if primaryE = ".py" then "\n💡 These are Python files."
         else if primaryE = ".java" then "\n💡 These are Java files."
         else ""))

/-! ## The mode filter (`src/modes.js`) -/

/-- A path-exclusion pattern of `ANSWER_MODES`.  Every pattern in the source
is either a case-insensitive literal-substring regex (`/lit/i`, dots escaped)
or the case-sensitive suffix regex `/\.X$/`. -/
inductive PathPat
  | ciSub (s : String)
  | sfx (s : String)
deriving DecidableEq, Repr

/-- `pattern.test(path)` for the two pattern shapes above (`s` of `ciSub` is
stored lowercased). -/
def PathPat.test (pat : PathPat) (path : String) : Bool :=
  match pat with
  | .ciSub s => jsIncludes (jsToLower path) s
  | .sfx s => jsEndsWith path s

/-- The filter-relevant part of a mode configuration
(`filters.excludePatterns` and `filters.prioritizeTypes`). -/
structure AnswerMode where
  excludePatterns : List PathPat
  prioritizeTypes : List String
deriving DecidableEq, Repr

/-- `ANSWER_MODES.enduser.filters` (`src/modes.js` lines 9-28). -/
def enduserMode : AnswerMode where
  excludePatterns :=
    [.ciSub "test.", .ciSub "spec.", .ciSub ".test.", .ciSub ".spec.",
     .ciSub "internal", .ciSub "private", .ciSub "debug", .ciSub "mock",
     .ciSub "stub", .ciSub "__tests__", .sfx ".d.ts"]
  prioritizeTypes := ["documentation", "api", "interface", "public"]

/-- `ANSWER_MODES.developer.filters` (`src/modes.js` lines 43-50). -/
def developerMode : AnswerMode where
  excludePatterns := []
  prioritizeTypes := ["code", "test", "config", "architecture", "internal"]

/-- `ANSWER_MODES.copilot.filters` (`src/modes.js` lines 65-77). -/
def copilotMode : AnswerMode where
  excludePatterns := [.ciSub "readme", .ciSub "changelog", .ciSub "license", .sfx ".md"]
  prioritizeTypes := ["code", "test", "example", "snippet"]

/-- The priority test of `filterResults` (`src/modes.js` lines 138-145):
the lowercased path contains the type, or the lowercased `documentLang`
equals it (`?.` on a null language is modelled by the empty string, which
never equals a type). -/
def hasPriority (mode : AnswerMode) (r : SearchResult) : Bool :=
  mode.prioritizeTypes.any fun t =>
    jsIncludes (jsToLower r.documentPath) t || jsToLower r.documentLang == t

/-- The order of the comparator at `src/modes.js` lines 137-150: priority
results first, then score descending (`a` may precede `b` iff the comparator
is `≤ 0`). -/
def modeLE (mode : AnswerMode) (a b : SearchResult) : Bool :=
  if hasPriority mode a == hasPriority mode b then Nat.ble b.score a.score
  else hasPriority mode a

/-- `AnswerModeManager.filterResults` (`src/modes.js` lines 121-154): drop
results matching an exclude pattern, then — when `prioritizeTypes` is
non-empty — re-sort with the priority comparator (stable, per ECMAScript). -/
def filterResults (mode : AnswerMode) (searchResults : List SearchResult) :
    List SearchResult :=
  let filtered := searchResults.filter fun r =>
    !(mode.excludePatterns.any fun pat => pat.test r.documentPath)
  if mode.prioritizeTypes.isEmpty then filtered
  else filtered.mergeSort (modeLE mode)

/-! ## The remote delegate (`src/external-server-service.js`) -/

/-- A resolved `fetch` response: HTTP status and body text. -/
structure FetchResp where
  status : Nat
  body : String
deriving DecidableEq, Repr

/-- The outcome of one `fetch` call: a response, a network rejection, or the
configured timeout firing (`AbortError`). -/
inductive FetchOutcome
  | resp (r : FetchResp)
  | netErr (msg : String)
  | timedOut
deriving DecidableEq, Repr

/-- `Response.ok`: status in the 2xx range. -/
def respOk (r : FetchResp) : Bool :=
  200 ≤ r.status && r.status < 300

/-- `makeRequest` (`src/external-server-service.js` lines 61-97): POST the
payload; a non-2xx response becomes `Error("HTTP <status>: <body>")`
(lines 81-84), a timeout becomes `Error("Request timeout after <t>ms")`, a
network rejection is rethrown. -/
def makeRequest (timeout : Nat) (f : FetchOutcome) : Except String FetchResp :=
  match f with
  | .resp r =>
    if respOk r then .ok r
    else .error ("HTTP " ++ toString r.status ++ ": " ++ r.body)
  | .netErr m => .error m
  | .timedOut => .error ("Request timeout after " ++ toString timeout ++ "ms")

/-- The retry loop of `sendDocument` (`src/external-server-service.js`
lines 36-58), instrumented: the second component counts `makeRequest`
invocations, the third counts inter-attempt `sleep(delay)` calls.  `fetches`
gives the outcome of the fetch performed on each attempt number (1-based);
`remaining` counts the loop iterations left (initially `attempts`), and the
loop sleeps exactly when `attempt < attempts`, as in the source.  No branch
of the loop inspects the HTTP status: every caught error is retried alike. -/
def sendLoop (timeout attempts : Nat) (fetches : Nat → FetchOutcome) :
    Nat → Nat → String → Except String FetchResp × Nat × Nat
  | _, 0, lastError =>
    (.error ("External server failed after " ++ toString attempts ++
      " attempts: " ++ lastError), 0, 0)
  | attempt, r + 1, _ =>
    match makeRequest timeout (fetches attempt) with
    | .ok resp => (.ok resp, 1, 0)
    | .error e =>
      if attempt < attempts then
        let nxt := sendLoop timeout attempts fetches (attempt + 1) r e
        (nxt.1, nxt.2.1 + 1, nxt.2.2 + 1)
      else
        let nxt := sendLoop timeout attempts fetches (attempt + 1) r e
        (nxt.1, nxt.2.1 + 1, nxt.2.2)

/-- `sendDocument` (`src/external-server-service.js` lines 21-59): the
file-size guard, then the retry loop (attempt numbers `1..attempts`).
A successful attempt returns the response (its body models the parsed JSON);
exhausted retries throw the wrapping error.  The initial `lastError` is the
JS `undefined`, modelled as `""` (it is overwritten before the final throw
whenever `attempts ≥ 1`). -/
def sendDocument (maxFileSize timeout attempts delay docSize : Nat)
    (fetches : Nat → FetchOutcome) : Except String FetchResp × Nat × Nat :=
  if maxFileSize < docSize then
    (.error ("File too large: " ++ toString docSize ++ " bytes (max: " ++
      toString maxFileSize ++ " bytes)"), 0, 0)
  else
    sendLoop timeout attempts fetches 1 attempts ""

/-! ## Concrete corpora and results used by the theorems -/

/-- A one-file corpus document. -/
def exDoc : Document where
  id := "d1"
  relativePath := "src/a.js"
  language := "JavaScript"

/-- A corpus whose only chunk content contains a parenthesis. -/
def kbParen : KnowledgeBase where
  documents := [("d1", exDoc)]
  chunks := [("d1", [⟨"d1_chunk_0", 0, "f(x)", 0, 0, 5⟩])]

/-- A corpus whose only chunk content is `"hello"`. -/
def kbHello : KnowledgeBase where
  documents := [("d1", exDoc)]
  chunks := [("d1", [⟨"d1_chunk_0", 0, "hello", 0, 0, 6⟩])]

/-- A corpus whose only chunk content is `"---"` (all non-word characters). -/
def kbDash : KnowledgeBase where
  documents := [("d1", exDoc)]
  chunks := [("d1", [⟨"d1_chunk_0", 0, "---", 0, 0, 4⟩])]

/-- A search result whose path matches the password-reset path heuristics. -/
def resReset : SearchResult where
  documentId := "d1"
  documentPath := "src/auth/reset.js"
  documentLang := "JavaScript"
  chunkId := "c0"
  score := 1
  lines := "0-9"
  matchesList := []
  contextSnippets := ["authModule resetPassword"]
  fullContent := "resetPassword()"
  preview := "resetPassword()"

/-- A search result whose path matches the `enduser` pattern `/test\./i`. -/
def resTestFile : SearchResult where
  documentId := "d2"
  documentPath := "src/auth.test.js"
  documentLang := "JavaScript"
  chunkId := "c1"
  score := 5
  lines := "0-3"
  matchesList := []
  contextSnippets := ["x"]
  fullContent := "y"
  preview := "y"

/-- A search result whose path matches no `enduser` exclude pattern. -/
def resAuthFile : SearchResult where
  documentId := "d3"
  documentPath := "src/auth.js"
  documentLang := "JavaScript"
  chunkId := "c2"
  score := 3
  lines := "0-3"
  matchesList := []
  contextSnippets := ["x"]
  fullContent := "y"
  preview := "y"

/-- A request function that always yields HTTP 401. -/
def always401 : Nat → FetchOutcome :=
  fun _ => .resp ⟨401, "Unauthorized"⟩

/-- The trigger substrings of `generateAnswer`'s special-case branches, in
source order (`src/search.js` lines 157, 194, 215, 234, 253, 273). -/
def specialTriggerWords : List String :=
  ["password reset", "reset password", "forgot password",
   "login", "authentication", "auth",
   "api", "endpoint", "route",
   "database", "model", "schema",
   "component", "ui", "frontend",
   "language", "support"]

/-- Does the lowercased query contain any of the given substrings? -/
def mentionsAnyOf (q : String) (subs : List String) : Bool :=
  subs.any fun s => jsIncludes (jsToLower q) s

/-- The trigger substrings of the branches tried *before* the
language/support branch, in source order. -/
def preLanguageTriggerWords : List String :=
  ["password reset", "reset password", "forgot password",
   "login", "authentication", "auth",
   "api", "endpoint", "route",
   "database", "model", "schema",
   "component", "ui", "frontend"]

/-- The result `search` produces for the query `"hello zz"` on `kbHello`. -/
def resHello : SearchResult where
  documentId := "d1"
  documentPath := "src/a.js"
  documentLang := "JavaScript"
  chunkId := "d1_chunk_0"
  score := 1
  lines := "0-0"
  matchesList := []
  contextSnippets := ["hello"]
  fullContent := "hello"
  preview := "hello"

/-- The result `search` produces for the query `"-"` on `kbDash`: its one
context snippet is the empty string (the cleaned snippet strips to nothing),
while its preview is the raw content. -/
def resDash : SearchResult where
  documentId := "d1"
  documentPath := "src/a.js"
  documentLang := "JavaScript"
  chunkId := "d1_chunk_0"
  score := 3
  lines := "0-0"
  matchesList := []
  contextSnippets := [""]
  fullContent := "---"
  preview := "---"

/-! ## Lemmas about the chunker -/

theorem splitNLAux_ne_nil : ∀ (l acc : List Char), splitNLAux acc l ≠ [] := by
  intro l
  induction l with
  | nil => intro acc; simp [splitNLAux]
  | cons c cs ih =>
    intro acc
    rw [splitNLAux]
    split
    · simp
    · exact ih _

theorem jsSplitNL_ne_nil (s : String) : jsSplitNL s ≠ [] :=
  splitNLAux_ne_nil _ _

theorem one_le_natCeilDiv {a b : Nat} (ha : 1 ≤ a) (hb : 1 ≤ b) :
    1 ≤ natCeilDiv a b := by
  unfold natCeilDiv
  rw [Nat.le_div_iff_mul_le hb]
  omega

/-- After a flush with a positive overlap budget, the retained buffer is
non-empty: the overlap line count is at least one. -/
theorem newChunk_len_pos (overlap size : Nat) (buf : List String)
    (hov : 1 ≤ overlap) (hbuf : buf ≠ []) (hsize : 1 ≤ size) :
    1 ≤ (buf.drop (buf.length - overlapLineCount overlap buf.length size)).length := by
  have hlen : 1 ≤ buf.length := List.length_pos.mpr hbuf
  have h1 : 1 ≤ overlapLineCount overlap buf.length size :=
    one_le_natCeilDiv (by calc 1 = 1 * 1 := by omega
                            _ ≤ overlap * buf.length := Nat.mul_le_mul hov hlen) hsize
  simp only [List.length_drop]
  omega

/-- Every line from `st` up to the last line is inside some reported chunk
range, provided the overlap budget is positive and the state is reachable
(non-empty buffer of positive size starting at or before the current line). -/
theorem chunksGo_covers (chunkSize overlap : Nat) (docId : String)
    (hov : 1 ≤ overlap) :
    ∀ (lines : List String) (i : Nat) (buf : List String) (size idx st : Nat),
      buf ≠ [] → 1 ≤ size → st ≤ i →
      ∀ l, st ≤ l → l + 1 ≤ i + lines.length →
      ∃ c ∈ chunksGo chunkSize overlap docId lines i buf size idx st,
        c.startLine ≤ l ∧ l ≤ c.endLine := by
  intro lines
  induction lines with
  | nil =>
    intro i buf size idx st hbuf hsize hsti l hl1 hl2
    simp only [List.length_nil, Nat.add_zero] at hl2
    rw [chunksGo, if_neg (by simpa using hbuf)]
    exact ⟨_, List.mem_singleton_self _, by simpa using hl1, by simp; omega⟩
  | cons line rest ih =>
    intro i buf size idx st hbuf hsize hsti l hl1 hl2
    simp only [chunksGo]
    by_cases hcond : size + (line.length + 1) > chunkSize ∧ 0 < buf.length
    · rw [if_pos hcond]
      rcases Nat.lt_or_ge l i with hli | hli
      · exact ⟨_, List.mem_cons_self _ _, by simpa using hl1, by simp; omega⟩
      · have hk := newChunk_len_pos overlap size buf hov hbuf hsize
        obtain ⟨c, hc, hc1, hc2⟩ :=
          ih (i + 1)
            (buf.drop (buf.length - overlapLineCount overlap buf.length size) ++ [line])
            ((joinNL (buf.drop (buf.length - overlapLineCount overlap buf.length size))).length
              + (line.length + 1))
            (idx + 1)
            (i + 1 - (buf.drop (buf.length - overlapLineCount overlap buf.length size)).length)
            (by simp) (by omega) (by omega) l (by omega)
            (by simp only [List.length_cons] at hl2 ⊢; omega)
        exact ⟨c, List.mem_cons_of_mem _ hc, hc1, hc2⟩
    · rw [if_neg hcond]
      exact ih (i + 1) (buf ++ [line]) (size + (line.length + 1)) idx st
        (by simp) (by omega) (by omega) l hl1
        (by simp only [List.length_cons] at hl2 ⊢; omega)

/-- Every reported chunk range ends before the end of the document. -/
theorem chunksGo_endLine_le (chunkSize overlap : Nat) (docId : String) :
    ∀ (lines : List String) (i : Nat) (buf : List String) (size idx st : Nat),
      (buf ≠ [] → 1 ≤ i) →
      ∀ c ∈ chunksGo chunkSize overlap docId lines i buf size idx st,
        c.endLine + 1 ≤ i + lines.length := by
  intro lines
  induction lines with
  | nil =>
    intro i buf size idx st hbi c hc
    rw [chunksGo] at hc
    split at hc
    · simp at hc
    · rename_i hne
      have hbuf : buf ≠ [] := by simpa using hne
      have := hbi hbuf
      simp at hc
      subst hc
      simp
      omega
  | cons line rest ih =>
    intro i buf size idx st hbi c hc
    simp only [chunksGo] at hc
    by_cases hcond : size + (line.length + 1) > chunkSize ∧ 0 < buf.length
    · rw [if_pos hcond] at hc
      rcases List.mem_cons.mp hc with hceq | hcmem
      · subst hceq
        have hi : 1 ≤ i := hbi (by have := hcond.2; exact List.length_pos.mp this)
        simp
        omega
      · have := ih (i + 1) _ _ (idx + 1) _ (fun _ => by omega) c hcmem
        simp only [List.length_cons]
        omega
    · rw [if_neg hcond] at hc
      have := ih (i + 1) (buf ++ [line]) (size + (line.length + 1)) idx st
        (fun _ => by omega) c hc
      simp only [List.length_cons]
      omega

/-- With a positive overlap budget, every reported chunk has
`startLine ≤ endLine`, from any reachable state. -/
theorem chunksGo_start_le_end (chunkSize overlap : Nat) (docId : String)
    (hov : 1 ≤ overlap) :
    ∀ (lines : List String) (i : Nat) (buf : List String) (size idx st : Nat),
      st ≤ i → (buf ≠ [] → 1 ≤ size ∧ st + 1 ≤ i) →
      ∀ c ∈ chunksGo chunkSize overlap docId lines i buf size idx st,
        c.startLine ≤ c.endLine := by
  intro lines
  induction lines with
  | nil =>
    intro i buf size idx st hsti hbuf c hc
    rw [chunksGo] at hc
    split at hc
    · simp at hc
    · rename_i hne
      obtain ⟨-, hst1⟩ := hbuf (by simpa using hne)
      simp at hc
      subst hc
      simp
      omega
  | cons line rest ih =>
    intro i buf size idx st hsti hbuf c hc
    simp only [chunksGo] at hc
    by_cases hcond : size + (line.length + 1) > chunkSize ∧ 0 < buf.length
    · rw [if_pos hcond] at hc
      have hbne : buf ≠ [] := List.length_pos.mp hcond.2
      obtain ⟨hsz, hst1⟩ := hbuf hbne
      rcases List.mem_cons.mp hc with hceq | hcmem
      · subst hceq
        simp
        omega
      · have hk := newChunk_len_pos overlap size buf hov hbne hsz
        exact ih (i + 1) _ _ (idx + 1) _ (by omega)
          (fun _ => ⟨by omega, by omega⟩) c hcmem
    · rw [if_neg hcond] at hc
      exact ih (i + 1) (buf ++ [line]) (size + (line.length + 1)) idx st
        (by omega)
        (fun _ => ⟨by omega, by
          rcases List.eq_nil_or_concat buf with hb | hb
          · subst hb; omega
          · exact Nat.succ_le_succ (Nat.le_trans (Nat.le_of_succ_le
              ((hbuf (by rcases hb with ⟨l', a, rfl⟩; simp)).2)) (Nat.le_refl i))⟩)
        c hc

/-- The first chunk a run of the loop reports starts at the state's
`startLine`. -/
theorem chunksGo_head_start (chunkSize overlap : Nat) (docId : String) :
    ∀ (lines : List String) (i : Nat) (buf : List String) (size idx st : Nat)
      (c : Chunk) (cs : List Chunk),
      chunksGo chunkSize overlap docId lines i buf size idx st = c :: cs →
      c.startLine = st := by
  intro lines
  induction lines with
  | nil =>
    intro i buf size idx st c cs hc
    rw [chunksGo] at hc
    split at hc
    · simp at hc
    · simp at hc
      exact hc.1.symm ▸ rfl
  | cons line rest ih =>
    intro i buf size idx st c cs hc
    simp only [chunksGo] at hc
    by_cases hcond : size + (line.length + 1) > chunkSize ∧ 0 < buf.length
    · rw [if_pos hcond] at hc
      cases hc
      rfl
    · rw [if_neg hcond] at hc
      exact ih (i + 1) (buf ++ [line]) (size + (line.length + 1)) idx st c cs hc

/-- With a positive overlap budget, consecutive reported chunks satisfy
`next.startLine ≤ prev.endLine + 1`. -/
theorem chunksGo_chain (chunkSize overlap : Nat) (docId : String)
    (hov : 1 ≤ overlap) :
    ∀ (lines : List String) (i : Nat) (buf : List String) (size idx st : Nat),
      st ≤ i → (buf ≠ [] → 1 ≤ size ∧ st + 1 ≤ i) →
      List.Chain' (fun a b => b.startLine ≤ a.endLine + 1)
        (chunksGo chunkSize overlap docId lines i buf size idx st) := by
  intro lines
  induction lines with
  | nil =>
    intro i buf size idx st hsti hbuf
    rw [chunksGo]
    split
    · simp
    · simp
  | cons line rest ih =>
    intro i buf size idx st hsti hbuf
    simp only [chunksGo]
    by_cases hcond : size + (line.length + 1) > chunkSize ∧ 0 < buf.length
    · rw [if_pos hcond]
      have hbne : buf ≠ [] := List.length_pos.mp hcond.2
      obtain ⟨hsz, hst1⟩ := hbuf hbne
      have hk := newChunk_len_pos overlap size buf hov hbne hsz
      rw [List.chain'_cons']
      constructor
      · intro b hb
        cases hrec : chunksGo chunkSize overlap docId rest (i + 1)
            (buf.drop (buf.length - overlapLineCount overlap buf.length size) ++ [line])
            ((joinNL (buf.drop (buf.length - overlapLineCount overlap buf.length size))).length
              + (line.length + 1)) (idx + 1)
            (i + 1 - (buf.drop (buf.length - overlapLineCount overlap buf.length size)).length) with
        | nil => rw [hrec] at hb; simp at hb
        | cons c cs =>
          rw [hrec] at hb
          simp at hb
          subst hb
          have hhead := chunksGo_head_start chunkSize overlap docId rest (i + 1) _ _ (idx + 1) _ c cs hrec
          rw [hhead]
          show i + 1 - (buf.drop (buf.length - overlapLineCount overlap buf.length size)).length ≤
            (i - 1) + 1
          omega
      · exact ih (i + 1) _ _ (idx + 1) _ (by omega) (fun _ => ⟨by omega, by omega⟩)
    · rw [if_neg hcond]
      exact ih (i + 1) (buf ++ [line]) (size + (line.length + 1)) idx st (by omega)
        (fun _ => ⟨by omega, by
          rcases List.eq_nil_or_concat buf with hb | hb
          · subst hb; omega
          · exact Nat.succ_le_succ (Nat.le_trans (Nat.le_of_succ_le
              ((hbuf (by rcases hb with ⟨l', a, rfl⟩; simp)).2)) (Nat.le_refl i))⟩)

theorem getLast_cons_of_ne_nil {α : Type} (a : α) (l : List α) (h : l ≠ []) :
    (a :: l).getLast? = l.getLast? := by
  cases l with
  | nil => exact absurd rfl h
  | cons b l' => exact List.getLast?_cons_cons

/-- The last reported chunk ends at the last line of the document, for every
overlap budget. -/
theorem chunksGo_last (chunkSize overlap : Nat) (docId : String) :
    ∀ (lines : List String) (i : Nat) (buf : List String) (size idx st : Nat),
      (lines ≠ [] ∨ buf ≠ []) → (buf ≠ [] → 1 ≤ i) →
      ∃ c, (chunksGo chunkSize overlap docId lines i buf size idx st).getLast? = some c ∧
        c.endLine + 1 = i + lines.length := by
  intro lines
  induction lines with
  | nil =>
    intro i buf size idx st hne hbi
    have hbuf : buf ≠ [] := by
      rcases hne with h | h
      · exact absurd rfl h
      · exact h
    have hi := hbi hbuf
    rw [chunksGo, if_neg (by simpa using hbuf)]
    exact ⟨⟨docId ++ "_chunk_" ++ toString idx, idx, joinNL buf, st, i - 1, size⟩,
      by simp, by simp; omega⟩
  | cons line rest ih =>
    intro i buf size idx st hne hbi
    simp only [chunksGo]
    by_cases hcond : size + (line.length + 1) > chunkSize ∧ 0 < buf.length
    · rw [if_pos hcond]
      obtain ⟨c, hc, hcend⟩ := ih (i + 1)
        (buf.drop (buf.length - overlapLineCount overlap buf.length size) ++ [line])
        ((joinNL (buf.drop (buf.length - overlapLineCount overlap buf.length size))).length
          + (line.length + 1))
        (idx + 1)
        (i + 1 - (buf.drop (buf.length - overlapLineCount overlap buf.length size)).length)
        (Or.inr (by simp)) (fun _ => by omega)
      have hnil : chunksGo chunkSize overlap docId rest (i + 1)
          (buf.drop (buf.length - overlapLineCount overlap buf.length size) ++ [line])
          ((joinNL (buf.drop (buf.length - overlapLineCount overlap buf.length size))).length
            + (line.length + 1)) (idx + 1)
          (i + 1 - (buf.drop (buf.length - overlapLineCount overlap buf.length size)).length) ≠ [] := by
        intro h
        rw [h] at hc
        simp at hc
      refine ⟨c, ?_, by simp only [List.length_cons]; omega⟩
      rw [getLast_cons_of_ne_nil _ _ hnil]
      exact hc
    · rw [if_neg hcond]
      obtain ⟨c, hc, hcend⟩ := ih (i + 1) (buf ++ [line]) (size + (line.length + 1)) idx st
        (Or.inr (by simp)) (fun _ => by omega)
      exact ⟨c, hc, by simp only [List.length_cons]; omega⟩

/-! ## Claims C1 and C2: chunker coverage and range invariants -/

/-- C1 (amended): for every document content, every `chunkSizeBudget > 0` and
every **positive** `overlapBudget`, the chunk list covers the whole document:
each line index of `[0, lineCount-1]` lies in some reported
`[startLine, endLine]` range, and every range ends inside the document, so
the union of the ranges equals `[0, lineCount-1]`.  As stated — with
`overlapBudget = 0` permitted — the claim is false (`C1_counterexample`):
a flush that retains no overlap line reports the next chunk's `startLine`
as `i + 1` instead of `i`, leaving the boundary line uncovered. -/
theorem C1_coverage (content : String) (chunkSize overlap : Nat) (docId : String)
    (hcs : 0 < chunkSize) (hov : 1 ≤ overlap) :
    (∀ l, l + 1 ≤ (jsSplitNL content).length →
      ∃ c ∈ createChunks content chunkSize overlap docId,
        c.startLine ≤ l ∧ l ≤ c.endLine) ∧
    (∀ c ∈ createChunks content chunkSize overlap docId,
      c.endLine + 1 ≤ (jsSplitNL content).length) := by
  constructor
  · intro l hl
    unfold createChunks
    cases hlines : jsSplitNL content with
    | nil => exact absurd hlines (jsSplitNL_ne_nil content)
    | cons line rest =>
      rw [hlines] at hl
      simp only [chunksGo]
      rw [if_neg (by simp)]
      simp only [List.nil_append, Nat.zero_add]
      exact chunksGo_covers chunkSize overlap docId hov rest 1 [line] (line.length + 1) 0 0
        (by simp) (by omega) (by omega) l (by omega)
        (by simp only [List.length_cons] at hl; omega)
  · intro c hc
    unfold createChunks at hc
    simpa using chunksGo_endLine_le chunkSize overlap docId (jsSplitNL content) 0 [] 0 0 0
      (fun h => absurd rfl h) c hc

/-- C1 is false as stated: with content `"a\nb"` (2 lines),
`chunkSizeBudget = 2 > 0` and `overlapBudget = 0 ≥ 0`, the chunker reports
ranges `[0,0]` and `[2,1]`, and line `1` belongs to neither — the union of
the ranges is not `[0,1]`. -/
theorem C1_counterexample :
    (jsSplitNL "a\nb").length = 2 ∧
    createChunks "a\nb" 2 0 "doc" =
      [⟨"doc_chunk_0", 0, "a", 0, 0, 2⟩, ⟨"doc_chunk_1", 1, "b", 2, 1, 2⟩] ∧
    ¬ ∃ c ∈ createChunks "a\nb" 2 0 "doc", c.startLine ≤ 1 ∧ 1 ≤ c.endLine := by
  refine ⟨by decide, by decide, by decide⟩

/-- Witness for `C1_coverage`: concrete coverage of line 1 of `"a\nb"` with a
positive overlap budget. -/
theorem C1_witness :
    (0 : Nat) < 2 ∧ (1 : Nat) ≤ 1 ∧
    ∃ c ∈ createChunks "a\nb" 2 1 "doc", c.startLine ≤ 1 ∧ 1 ≤ c.endLine :=
  ⟨by decide, by decide,
    (C1_coverage "a\nb" 2 1 "doc" (by decide) (by decide)).1 1 (by decide)⟩

/-- C2 (amended): for every content and every `chunkSizeBudget > 0`: the
final chunk's `endLine` equals `lineCount - 1` for every `overlapBudget ≥ 0`;
and when `overlapBudget > 0`, every chunk satisfies `startLine ≤ endLine`
and each later chunk satisfies `chunk[i].startLine ≤ chunk[i-1].endLine + 1`.
As stated the claim is false (`C2_counterexample`): at `overlapBudget = 0`
a chunk can have `startLine > endLine`, and `chunk[i].startLine ≤
chunk[i-1].endLine` fails because the post-overlap `startLine` is computed
before the current line is pushed (off by one). -/
theorem C2_invariants (content : String) (chunkSize overlap : Nat) (docId : String)
    (hcs : 0 < chunkSize) :
    (∃ c, (createChunks content chunkSize overlap docId).getLast? = some c ∧
      c.endLine + 1 = (jsSplitNL content).length) ∧
    (1 ≤ overlap →
      (∀ c ∈ createChunks content chunkSize overlap docId, c.startLine ≤ c.endLine) ∧
      List.Chain' (fun a b => b.startLine ≤ a.endLine + 1)
        (createChunks content chunkSize overlap docId)) := by
  refine ⟨?_, fun hov => ⟨?_, ?_⟩⟩
  · unfold createChunks
    simpa using chunksGo_last chunkSize overlap docId (jsSplitNL content) 0 [] 0 0 0
      (Or.inl (jsSplitNL_ne_nil content)) (fun h => absurd rfl h)
  · intro c hc
    unfold createChunks at hc
    exact chunksGo_start_le_end chunkSize overlap docId hov (jsSplitNL content) 0 [] 0 0 0
      (Nat.le_refl 0) (fun h => absurd rfl h) c hc
  · unfold createChunks
    exact chunksGo_chain chunkSize overlap docId hov (jsSplitNL content) 0 [] 0 0 0
      (Nat.le_refl 0) (fun h => absurd rfl h)

/-- C2 is false as stated: with `overlapBudget = 0` (explicitly included in
the claim) the second chunk of `"a\nb"` under `chunkSizeBudget = 2` has
`startLine = 2 > endLine = 1`, and its `startLine` also exceeds the previous
chunk's `endLine = 0`. -/
theorem C2_counterexample :
    ∃ c0 c1, createChunks "a\nb" 2 0 "doc" = [c0, c1] ∧
      c1.endLine < c1.startLine ∧ c0.endLine < c1.startLine :=
  ⟨⟨"doc_chunk_0", 0, "a", 0, 0, 2⟩, ⟨"doc_chunk_1", 1, "b", 2, 1, 2⟩,
    by decide, by decide, by decide⟩

/-- Witness for `C2_invariants` at a concrete input with positive overlap. -/
theorem C2_witness :
    (∃ c, (createChunks "a\nb" 2 1 "doc").getLast? = some c ∧
      c.endLine + 1 = (jsSplitNL "a\nb").length) ∧
    (∀ c ∈ createChunks "a\nb" 2 1 "doc", c.startLine ≤ c.endLine) := by
  have h := C2_invariants "a\nb" 2 1 "doc" (by decide)
  exact ⟨h.1, (h.2 (by decide)).1⟩

/-! ## Claim C6: enduser mode exclusivity -/

/-- C6: in `enduser` mode, no filtered result's path matches `/test\./i` or
`/\.spec\./i` (i.e. contains `"test."` or `".spec."` case-insensitively)
— both are among the mode's exclude patterns, and `filterResults` only
reorders what survives the exclusion filter; in particular the set
`[src/auth.test.js, src/auth.js]` filters to `[src/auth.js]`. -/
theorem C6_exclusivity :
    (∀ (rs : List SearchResult) (r : SearchResult), r ∈ filterResults enduserMode rs →
      jsIncludes (jsToLower r.documentPath) "test." = false ∧
      jsIncludes (jsToLower r.documentPath) ".spec." = false) ∧
    filterResults enduserMode [resTestFile, resAuthFile] = [resAuthFile] := by
  constructor
  · intro rs r hr
    unfold filterResults at hr
    rw [if_neg (by decide)] at hr
    rw [List.mem_mergeSort, List.mem_filter] at hr
    obtain ⟨-, hp⟩ := hr
    simp only [Bool.not_eq_true'] at hp
    rw [List.any_eq_false] at hp
    constructor
    · simpa [PathPat.test] using hp (.ciSub "test.") (by decide)
    · simpa [PathPat.test] using hp (.ciSub ".spec.") (by decide)
  · simp only [filterResults]
    rw [if_neg (by decide)]
    rw [show ([resTestFile, resAuthFile].filter fun r =>
        !(enduserMode.excludePatterns.any fun pat => pat.test r.documentPath)) =
        [resAuthFile] from by decide]
    simp

/-- Witness for `C6_exclusivity`: the surviving result of the scenario indeed has
a path clear of both patterns. -/
theorem C6_witness :
    jsIncludes (jsToLower resAuthFile.documentPath) "test." = false ∧
    jsIncludes (jsToLower resAuthFile.documentPath) ".spec." = false :=
  C6_exclusivity.1 [resTestFile, resAuthFile] resAuthFile
    (by rw [C6_exclusivity.2]; exact List.mem_singleton_self resAuthFile)

/-! ## Claim C9: the remote-delegate retry loop -/

/-- When every attempt's request fails, the retry loop runs all remaining
iterations, sleeps between consecutive attempts, and throws the wrapping
error carrying the last attempt's error message. -/
theorem sendLoop_all_fail (timeout attempts : Nat) (fetches : Nat → FetchOutcome)
    (errOf : Nat → String)
    (hfail : ∀ i, makeRequest timeout (fetches i) = .error (errOf i)) :
    ∀ (r attempt : Nat) (e0 : String), attempt + r = attempts + 1 →
      sendLoop timeout attempts fetches attempt r e0 =
        (.error ("External server failed after " ++ toString attempts ++ " attempts: " ++
          (if r = 0 then e0 else errOf attempts)), r, r - 1) := by
  intro r
  induction r with
  | zero =>
    intro attempt e0 h
    rw [sendLoop]
    simp
  | succ n ih =>
    intro attempt e0 h
    rw [sendLoop]
    simp only [hfail attempt]
    by_cases hlt : attempt < attempts
    · have hrec := ih (attempt + 1) (errOf attempt) (by omega)
      have hn : n ≠ 0 := by omega
      rw [if_pos hlt]
      simp only [hrec]
      rw [show n - 1 + 1 = n + 1 - 1 from by omega]
      simp [hn]
    · have hn : n = 0 := by omega
      subst hn
      have hrec := ih (attempt + 1) (errOf attempt) (by omega)
      have ha : attempt = attempts := by omega
      subst ha
      rw [if_neg hlt]
      simp only [hrec]
      simp

/-- C9 (amended): transport failures are retried up to the configured attempt
count with the fixed inter-attempt delay, *including* HTTP 401/403 — the loop
never special-cases authentication failures.  For a request function that
always fails (e.g. always returns 401 or 403), `sendDocument` invokes the
request exactly `attempts` times, sleeps `attempts - 1` times, and surfaces
an error wrapping the last failure's message (which carries the HTTP
status).  As stated — auth failures invoked exactly once — the claim is
false; see `C9_counterexample`. -/
theorem C9_retry_all_failures (maxFileSize timeout attempts delay docSize : Nat)
    (fetches : Nat → FetchOutcome) (errOf : Nat → String)
    (hsize : docSize ≤ maxFileSize) (hatt : 1 ≤ attempts)
    (hfail : ∀ i, makeRequest timeout (fetches i) = .error (errOf i)) :
    sendDocument maxFileSize timeout attempts delay docSize fetches =
      (.error ("External server failed after " ++ toString attempts ++ " attempts: " ++
        errOf attempts), attempts, attempts - 1) := by
  unfold sendDocument
  rw [if_neg (by omega)]
  rw [sendLoop_all_fail timeout attempts fetches errOf hfail attempts 1 "" (by omega)]
  have hne : attempts ≠ 0 := by omega
  simp [hne]

/-- C9 is false as stated: a request function that always returns HTTP 401
is invoked 3 times under a 3-attempt configuration, not exactly once, before
the wrapping error (carrying the 401 status text) is thrown. -/
theorem C9_counterexample :
    sendDocument 1000 5000 3 1000 10 always401 =
      (.error "External server failed after 3 attempts: HTTP 401: Unauthorized", 3, 2) ∧
    (3 : Nat) ≠ 1 :=
  ⟨rfl, by decide⟩

/-- Witness for `C9_retry_all_failures` at the concrete always-401 request function. -/
theorem C9_witness :
    sendDocument 1000 5000 3 1000 10 always401 =
      (.error ("External server failed after " ++ toString 3 ++ " attempts: " ++
        "HTTP 401: Unauthorized"), 3, 3 - 1) :=
  C9_retry_all_failures 1000 5000 3 1000 10 always401 (fun _ => "HTTP 401: Unauthorized")
    (by decide) (by decide) (fun _ => rfl)

/-! ## Lemmas about sorting and the search scan -/

theorem resultLE_trans (a b c : SearchResult) :
    resultLE a b → resultLE b c → resultLE a c := by
  simp only [resultLE, Nat.ble_eq]
  omega

theorem resultLE_total (a b : SearchResult) :
    resultLE a b || resultLE b a := by
  simp only [resultLE, Nat.ble_eq, Bool.or_eq_true, decide_eq_true_eq]
  omega

/-- The sorted result list is pairwise descending by score. -/
theorem sortResults_sorted (rs : List SearchResult) :
    (sortResults rs).Pairwise (fun a b => b.score ≤ a.score) := by
  have h := @List.sorted_mergeSort SearchResult resultLE
    (fun a b c => resultLE_trans a b c) (fun a b => resultLE_total a b) rs
  exact h.imp (fun hab => by simpa [resultLE, Nat.ble_eq] using hab)

/-- Stability of the sort: the results carrying any fixed score appear in the
sorted list exactly as they appear, in order, in the scan output. -/
theorem filter_score_sortResults (rs : List SearchResult) (s : Nat) :
    (sortResults rs).filter (fun r => r.score == s) =
      rs.filter (fun r => r.score == s) := by
  have hmemf : ∀ a ∈ rs.filter (fun r => r.score == s), a.score = s := by
    intro a ha
    have := (List.mem_filter.mp ha).2
    simpa using this
  have hpw : (rs.filter (fun r => r.score == s)).Pairwise
      (fun a b => resultLE a b = true) := by
    apply List.pairwise_of_forall_mem_list
    intro a ha b hb
    simp only [resultLE, Nat.ble_eq]
    rw [hmemf a ha, hmemf b hb]
  have hsub : List.Sublist (rs.filter fun r => r.score == s) (sortResults rs) :=
    List.sublist_mergeSort (fun a b c => resultLE_trans a b c)
      (fun a b => resultLE_total a b) hpw (List.filter_sublist rs)
  have hself : (rs.filter (fun r => r.score == s)).filter (fun r => r.score == s) =
      rs.filter (fun r => r.score == s) :=
    List.filter_eq_self.mpr (fun a ha => by simpa using hmemf a ha)
  have hsub2 : List.Sublist (rs.filter fun r => r.score == s)
      ((sortResults rs).filter fun r => r.score == s) := by
    have := hsub.filter (fun r => r.score == s)
    rwa [hself] at this
  have hperm : List.Perm ((sortResults rs).filter fun r => r.score == s)
      (rs.filter fun r => r.score == s) :=
    (List.mergeSort_perm rs resultLE).filter _
  exact (hsub2.eq_of_length hperm.length_eq.symm).symm

/-- If the pattern occurs, `indexOf` finds an index. -/
theorem indexOfAux_isSome_of_containsAux (pat : List Char) :
    ∀ l : List Char, containsAux pat l = true → (indexOfAux pat l).isSome := by
  intro l
  induction l with
  | nil =>
    intro h
    rw [containsAux] at h
    rw [indexOfAux, if_pos h]
    rfl
  | cons c cs ih =>
    intro h
    rw [containsAux] at h
    rw [indexOfAux]
    by_cases hp : pat.isPrefixOf (c :: cs)
    · rw [if_pos hp]; rfl
    · rw [if_neg hp]
      simp only [hp, Bool.false_or] at h
      have hrec := ih h
      cases hio : indexOfAux pat cs with
      | none => rw [hio] at hrec; simp at hrec
      | some n => rfl

/-- Evaluation of one keyword step when the keyword occurs, the pattern
compiles, and the first occurrence is at `index`: the score grows by the
global match count and the cleaned snippet is pushed unless the dedup check
rejects it. -/
theorem scoreKeyword_eq_found (content kw : String) (st : Nat × List String)
    (hinc : jsIncludes (jsToLower content) kw = true)
    (hok : jsPatternOk kw = true)
    (index : Nat) (hidx : jsIndexOf (jsToLower content) kw = some index)
    (snip : String)
    (hsnip : snip = jsStripNonWord (jsCollapseWs (jsTrim (jsSubstring content
      (index - 80) (min (jsToLower content).length (index + kw.length + 80)))))) :
    scoreKeyword content st kw =
      (if st.2.any (fun s => jsIncludes s (jsSubstring snip 0 30)) then
        .ok (st.1 + jsCountMatchesLit (jsToLower content) kw, st.2)
      else
        .ok (st.1 + jsCountMatchesLit (jsToLower content) kw, st.2 ++ [snip])) := by
  subst hsnip
  simp only [scoreKeyword, hinc, hok, hidx, eq_self_iff_true, if_true]

/-- One keyword step preserves the invariant "a positive score comes with a
non-empty snippet list" (and never empties the snippet list). -/
theorem scoreKeyword_inv (content kw : String) (st st' : Nat × List String)
    (h : scoreKeyword content st kw = .ok st')
    (hst : 0 < st.1 → st.2 ≠ []) : 0 < st'.1 → st'.2 ≠ [] := by
  by_cases hinc : jsIncludes (jsToLower content) kw
  · by_cases hok : jsPatternOk kw
    · cases hidx : jsIndexOf (jsToLower content) kw with
      | none =>
        have hsome := indexOfAux_isSome_of_containsAux kw.toList (jsToLower content).toList hinc
        rw [show indexOfAux kw.toList (jsToLower content).toList =
          jsIndexOf (jsToLower content) kw from rfl, hidx] at hsome
        simp at hsome
      | some index =>
        rw [scoreKeyword_eq_found content kw st hinc hok index hidx _ rfl] at h
        split at h
        · rename_i hdup
          cases h
          intro _
          cases hst2 : st.2 with
          | nil => rw [hst2] at hdup; simp at hdup
          | cons a l => simp
        · cases h
          intro _
          simp
    · simp [scoreKeyword, hinc, hok] at h
  · simp only [scoreKeyword, hinc, Bool.false_eq_true, if_false] at h
    cases h
    exact hst

/-- The keyword loop preserves the same invariant. -/
theorem scoreLoop_inv (content : String) :
    ∀ (kws : List String) (st st' : Nat × List String),
      scoreLoop content kws st = .ok st' →
      (0 < st.1 → st.2 ≠ []) → 0 < st'.1 → st'.2 ≠ [] := by
  intro kws
  induction kws with
  | nil =>
    intro st st' h hst
    rw [scoreLoop] at h
    cases h
    exact hst
  | cons kw rest ih =>
    intro st st' h hst
    rw [scoreLoop] at h
    cases hk : scoreKeyword content st kw with
    | error e => rw [hk] at h; exact absurd h (by simp)
    | ok st1 =>
      rw [hk] at h
      dsimp only at h
      exact ih st1 st' h (scoreKeyword_inv content kw st st1 hk hst)

/-- Every result accumulated by the chunk scan has a positive score and a
non-empty snippet list. -/
theorem scanChunks_inv (kws : List String) (docId : String) (doc : Document) :
    ∀ (cs : List Chunk) (acc out : List SearchResult),
      scanChunks kws docId doc cs acc = .ok out →
      (∀ r ∈ acc, 0 < r.score ∧ r.contextSnippets ≠ []) →
      ∀ r ∈ out, 0 < r.score ∧ r.contextSnippets ≠ [] := by
  intro cs
  induction cs with
  | nil =>
    intro acc out h hacc
    rw [scanChunks] at h
    cases h
    exact hacc
  | cons c rest ih =>
    intro acc out h hacc
    rw [scanChunks] at h
    cases hsl : scoreLoop c.content kws (0, []) with
    | error e => rw [hsl] at h; exact absurd h (by simp)
    | ok stp =>
      obtain ⟨sc, sn⟩ := stp
      rw [hsl] at h
      dsimp only at h
      by_cases hpos : 0 < sc
      · rw [if_pos hpos] at h
        refine ih (acc ++ [mkResult docId doc c sc sn]) out h ?_
        intro r hr
        rcases List.mem_append.mp hr with hr | hr
        · exact hacc r hr
        · have hr' : r = mkResult docId doc c sc sn := by simpa using hr
          subst hr'
          exact ⟨hpos, scoreLoop_inv c.content kws (0, []) (sc, sn) hsl (by simp) hpos⟩
      · rw [if_neg hpos] at h
        exact ih acc out h hacc

/-- Every result accumulated by the corpus scan has a positive score and a
non-empty snippet list. -/
theorem scanCorpus_inv (docs : List (String × Document)) (kws : List String) :
    ∀ (entries : List (String × List Chunk)) (acc out : List SearchResult),
      scanCorpus docs kws entries acc = .ok out →
      (∀ r ∈ acc, 0 < r.score ∧ r.contextSnippets ≠ []) →
      ∀ r ∈ out, 0 < r.score ∧ r.contextSnippets ≠ [] := by
  intro entries
  induction entries with
  | nil =>
    intro acc out h hacc
    rw [scanCorpus] at h
    cases h
    exact hacc
  | cons e rest ih =>
    intro acc out h hacc
    obtain ⟨dId, chs⟩ := e
    rw [scanCorpus] at h
    cases hl : docs.lookup dId with
    | none =>
      rw [hl] at h
      dsimp only at h
      exact ih acc out h hacc
    | some doc =>
      rw [hl] at h
      dsimp only at h
      cases hsc : scanChunks kws dId doc chs acc with
      | error e' => rw [hsc] at h; exact absurd h (by simp)
      | ok acc' =>
        rw [hsc] at h
        dsimp only at h
        exact ih acc' out h (scanChunks_inv kws dId doc chs acc acc' hsc hacc)

/-- Every result of the scan phase has a positive score and a non-empty
snippet list. -/
theorem searchScan_inv (kb : KnowledgeBase) (query : String)
    (raw : List SearchResult) (h : searchScan kb query = .ok raw) :
    ∀ r ∈ raw, 0 < r.score ∧ r.contextSnippets ≠ [] :=
  scanCorpus_inv kb.documents (jsSplitWs (jsToLower query)) kb.chunks [] raw h
    (by intro r hr; simp at hr)

/-! ## Claim C3: search throws on regex-metacharacter queries -/

/-- C3 (the failing input): searching for the query `"("` over a corpus whose
chunk content contains `"("` throws — `new RegExp("(", 'gi')` is an invalid
ECMAScript pattern — instead of returning a result list.  This contradicts
the spec's safety claim that local search never throws for well-formed string
input; the code feeds the raw keyword to the `RegExp` constructor without
escaping. -/
theorem C3_throws_on_paren :
    search kbParen "(" 10 = .error "SyntaxError: Invalid regular expression: (" := by
  rfl

/-! ## Claim C4: the empty query -/

theorem containsAux_nil_pat : ∀ l : List Char, containsAux [] l = true := by
  intro l
  cases l with
  | nil => rfl
  | cons c cs => rfl

theorem indexOfAux_nil_pat : ∀ l : List Char, indexOfAux [] l = some 0 := by
  intro l
  cases l with
  | nil => rfl
  | cons c cs => rfl

/-- Scoring any chunk against the empty keyword succeeds with the positive
score `content.length + 1` (the empty-pattern global regex matches at every
position) and one snippet. -/
theorem scoreLoop_empty_query (content : String) :
    ∃ sc sn, scoreLoop content [""] (0, []) = .ok (sc, sn) ∧ 0 < sc := by
  have h1 : jsIncludes (jsToLower content) "" = true := containsAux_nil_pat _
  have h3 : jsIndexOf (jsToLower content) "" = some 0 := indexOfAux_nil_pat _
  have hcnt : jsCountMatchesLit (jsToLower content) "" = (jsToLower content).length + 1 := rfl
  have hval : scoreLoop content [""] (0, []) =
      .ok (0 + jsCountMatchesLit (jsToLower content) "",
        [] ++ [jsStripNonWord (jsCollapseWs (jsTrim (jsSubstring content (0 - 80)
          (min (jsToLower content).length (0 + String.length "" + 80)))))]) := by
    rw [scoreLoop, scoreKeyword_eq_found content "" (0, []) h1 rfl 0 h3 _ rfl,
      if_neg (by simp)]
    dsimp only
    rw [scoreLoop]
  refine ⟨_, _, hval, ?_⟩
  rw [hcnt]
  omega

/-- With the empty keyword every chunk scores, so the chunk scan appends one
result per chunk. -/
theorem scanChunks_empty_query (docId : String) (doc : Document) :
    ∀ (cs : List Chunk) (acc : List SearchResult),
      ∃ out, scanChunks [""] docId doc cs acc = .ok out ∧
        out.length = acc.length + cs.length := by
  intro cs
  induction cs with
  | nil =>
    intro acc
    exact ⟨acc, by rw [scanChunks], by simp⟩
  | cons c rest ih =>
    intro acc
    obtain ⟨sc, sn, hsl, hpos⟩ := scoreLoop_empty_query c.content
    obtain ⟨out, hout, hlen⟩ := ih (acc ++ [mkResult docId doc c sc sn])
    refine ⟨out, ?_, ?_⟩
    · rw [scanChunks, hsl]
      dsimp only
      rw [if_pos hpos]
      exact hout
    · simp only [List.length_append, List.length_cons, List.length_nil] at hlen ⊢
      omega

/-- With the empty keyword the corpus scan never throws, never shrinks the
accumulator, and produces at least one result as soon as some chunk list of a
known document is non-empty. -/
theorem scanCorpus_empty_query (docs : List (String × Document)) :
    ∀ (entries : List (String × List Chunk)) (acc : List SearchResult),
      ∃ out, scanCorpus docs [""] entries acc = .ok out ∧
        acc.length ≤ out.length ∧
        (∀ e ∈ entries, (docs.lookup e.1).isSome → e.2 ≠ [] → 0 < out.length) := by
  intro entries
  induction entries with
  | nil =>
    intro acc
    exact ⟨acc, by rw [scanCorpus], Nat.le_refl _, by intro e he; simp at he⟩
  | cons e rest ih =>
    intro acc
    obtain ⟨dId, chs⟩ := e
    cases hl : docs.lookup dId with
    | none =>
      obtain ⟨out, hout, hle, hpos⟩ := ih acc
      refine ⟨out, ?_, hle, ?_⟩
      · rw [scanCorpus, hl]
        dsimp only
        exact hout
      · intro e' he' hsome hne
        rcases List.mem_cons.mp he' with he' | he'
        · subst he'; rw [hl] at hsome; simp at hsome
        · exact hpos e' he' hsome hne
    | some doc =>
      obtain ⟨acc1, hacc1, hlen1⟩ := scanChunks_empty_query dId doc chs acc
      obtain ⟨out, hout, hle, hpos⟩ := ih acc1
      refine ⟨out, ?_, ?_, ?_⟩
      · rw [scanCorpus, hl]
        dsimp only
        rw [hacc1]
        dsimp only
        exact hout
      · omega
      · intro e' he' hsome hne
        rcases List.mem_cons.mp he' with he' | he'
        · subst he'
          have : 0 < chs.length := List.length_pos.mpr hne
          omega
        · exact hpos e' he' hsome hne

/-- C4 (amended): the empty query does **not** return zero results.  In JS
`"".split(/\s+/)` is `[""]`, the empty keyword is a substring of every chunk
content, and the global regex count is `content.length + 1 ≥ 1`, so every
chunk of the corpus scores: whenever some known document has a non-empty
chunk list, `search(kb, "", limit)` succeeds with a non-empty result list
(the applied limit `options.limit || 10` is at least 1).  The claim as
stated — empty keyword list and zero results — is refuted by
`C4_counterexample`. -/
theorem C4_empty_query (kb : KnowledgeBase) (limit : Nat) (docId : String)
    (chs : List Chunk) (hmem : (docId, chs) ∈ kb.chunks)
    (hdoc : (kb.documents.lookup docId).isSome) (hch : chs ≠ []) :
    ∃ rs, search kb "" limit = .ok rs ∧ rs ≠ [] := by
  obtain ⟨raw, hraw, -, hpos⟩ := scanCorpus_empty_query kb.documents kb.chunks []
  have hscan : searchScan kb "" = .ok raw := by
    unfold searchScan
    rw [show jsSplitWs (jsToLower "") = [""] from rfl]
    exact hraw
  have hrawpos : 0 < raw.length := hpos (docId, chs) hmem hdoc hch
  refine ⟨(sortResults raw).take (effLimit limit), ?_, ?_⟩
  · unfold search
    rw [hscan]
  · have hlen : (sortResults raw).length = raw.length := by
      simp [sortResults]
    have heff : 0 < effLimit limit := by
      unfold effLimit
      split <;> omega
    have : 0 < ((sortResults raw).take (effLimit limit)).length := by
      rw [List.length_take]
      omega
    exact List.ne_nil_of_length_pos this

/-- C4 is false as stated: on a one-chunk corpus the empty query yields the
keyword list `[""]` (not an empty keyword list) and one scored result of
score `6 = length "hello" + 1` (not zero results). -/
theorem C4_counterexample :
    jsSplitWs (jsToLower "") = [""] ∧
    search kbHello "" 10 =
      .ok [⟨"d1", "src/a.js", "JavaScript", "d1_chunk_0", 6, "0-0", [], ["hello"],
        "hello", "hello"⟩] ∧
    ([⟨"d1", "src/a.js", "JavaScript", "d1_chunk_0", 6, "0-0", [], ["hello"],
        "hello", "hello"⟩] : List SearchResult) ≠ [] := by
  refine ⟨rfl, ?_, by simp⟩
  have hscan : searchScan kbHello "" =
      .ok [⟨"d1", "src/a.js", "JavaScript", "d1_chunk_0", 6, "0-0", [], ["hello"],
        "hello", "hello"⟩] := rfl
  unfold search
  rw [hscan]
  simp [sortResults, effLimit]

/-- Witness for `C4_empty_query` at the concrete one-chunk corpus. -/
theorem C4_witness :
    ∃ rs, search kbHello "" 10 = .ok rs ∧ rs ≠ [] :=
  C4_empty_query kbHello 10 "d1" [⟨"d1_chunk_0", 0, "hello", 0, 0, 6⟩]
    (by decide) (by decide) (by decide)

/-! ## Claim C5: ranking semantics -/

/-- C5: `search` sorts the scored results by score descending (pairwise), the
sort is stable (results of any fixed score appear in corpus-scan order), the
output is the first `limit` entries of the sorted list (default 10 — the
applied limit is `options.limit || 10`), and every returned result has score
at least 1 (only chunks with `score > 0` are pushed). -/
theorem C5_ranking (kb : KnowledgeBase) (query : String) (limit : Nat)
    (raw rs : List SearchResult)
    (hscan : searchScan kb query = .ok raw)
    (h : search kb query limit = .ok rs) :
    rs = (sortResults raw).take (effLimit limit) ∧
    List.Pairwise (fun a b => b.score ≤ a.score) rs ∧
    (∀ s, (sortResults raw).filter (fun r => r.score == s) =
      raw.filter (fun r => r.score == s)) ∧
    rs.length ≤ effLimit limit ∧
    (∀ r ∈ rs, 1 ≤ r.score) := by
  have hrs : rs = (sortResults raw).take (effLimit limit) := by
    unfold search at h
    rw [hscan] at h
    exact (Except.ok.inj h).symm
  refine ⟨hrs, ?_, fun s => filter_score_sortResults raw s, ?_, ?_⟩
  · rw [hrs]
    exact List.Pairwise.sublist (List.take_sublist _ _) (sortResults_sorted raw)
  · rw [hrs]
    exact List.length_take_le _ _
  · intro r hr
    rw [hrs] at hr
    have h2 : r ∈ raw := by
      have := List.mem_of_mem_take hr
      rwa [sortResults, List.mem_mergeSort] at this
    exact (searchScan_inv kb query raw hscan r h2).1

/-- Witness for `C5_ranking` at the concrete query `"hello zz"`. -/
theorem C5_witness :
    List.Pairwise (fun a b : SearchResult => b.score ≤ a.score) [resHello] ∧
    ∀ r ∈ [resHello], 1 ≤ r.score := by
  have hscan : searchScan kbHello "hello zz" = .ok [resHello] := rfl
  have hsearch : search kbHello "hello zz" 10 = .ok [resHello] := by
    unfold search
    rw [hscan]
    simp [sortResults, effLimit]
  have h := C5_ranking kbHello "hello zz" 10 [resHello] [resHello] hscan hsearch
  exact ⟨h.2.1, h.2.2.2.2⟩

/-! ## Claim C10: context snippets of returned results -/

/-- C10 (amended): every result returned by `search` has a non-empty
`contextSnippets` list — a positive score requires some keyword to pass the
`includes` guard, and the first such keyword's snippet is pushed into the
then-empty list (the dedup check cannot reject an insertion into an empty
list).  However the claim's further consequence — that the downstream
evidence fallback from first snippet to preview is never exercised — is
false: the one snippet can be the *empty string*, which is falsy, so
`r.contextSnippets[0] || r.preview` still falls back to the preview
(`C10_counterexample`). -/
theorem C10_snippets_nonempty (kb : KnowledgeBase) (query : String) (limit : Nat)
    (rs : List SearchResult) (h : search kb query limit = .ok rs) :
    ∀ r ∈ rs, r.contextSnippets ≠ [] := by
  unfold search at h
  cases hscan : searchScan kb query with
  | error e => rw [hscan] at h; exact absurd h (by simp)
  | ok raw =>
    rw [hscan] at h
    have hrs := (Except.ok.inj h).symm
    intro r hr
    rw [hrs] at hr
    have h2 : r ∈ raw := by
      have := List.mem_of_mem_take hr
      rwa [sortResults, List.mem_mergeSort] at this
    exact (searchScan_inv kb query raw hscan r h2).2

/-- C10's "fallback never exercised" consequence is false: for the query
`"-"` on a chunk `"---"` the result's snippet list is `[""]` — non-empty,
but its first snippet is the empty string, so the evidence `context` built
by `generateAnswer` is the preview `"---"`, not the stored snippet. -/
theorem C10_counterexample :
    search kbDash "-" 10 = .ok [resDash] ∧
    resDash.contextSnippets = [""] ∧
    (generateAnswer "-" [resDash]).evidence =
      some [⟨"src/a.js", "0-0", "---"⟩] ∧
    resDash.preview = "---" ∧ ("" : String) ≠ "---" := by
  refine ⟨?_, rfl, by decide, rfl, by decide⟩
  have hscan : searchScan kbDash "-" = .ok [resDash] := rfl
  unfold search
  rw [hscan]
  simp [sortResults, effLimit]

/-! ## Claims C7 and C8: answer-synthesizer branches and confidence -/

/-- C7 (amended): the special-case branches of `generateAnswer` are tried in
**source** order — password-reset, login/auth, api/endpoint/route,
database/model/schema, component/ui/frontend, and only then
language/support — with first match wins.  When the query mentions
"language" or "support" and matches none of the fifteen earlier-branch
triggers, and some result carries a language, the language branch fires:
confidence is fixed at `0.9` and the distinct languages are returned.  The
claim's ordering — language/support as branch 1, beating password-reset —
is false: see `C7_counterexample`. -/
theorem C7_branch_order (query : String) (rs : List SearchResult)
    (hlang : jsIncludes (jsToLower query) "language" = true ∨
      jsIncludes (jsToLower query) "support" = true)
    (hpre : mentionsAnyOf query preLanguageTriggerWords = false)
    (hne : languagesOf rs ≠ []) :
    (generateAnswer query rs).confidence = 9 / 10 ∧
    (generateAnswer query rs).languages = some (languagesOf rs) := by
  have hhas : ∀ w ∈ preLanguageTriggerWords, jsIncludes (jsToLower query) w = false := by
    intro w hw
    have := List.any_eq_false.mp (by simpa [mentionsAnyOf] using hpre) w hw
    simpa using this
  cases rs with
  | nil => exact absurd rfl hne
  | cons top rest =>
    have hL : (jsIncludes (jsToLower query) "language" ||
        jsIncludes (jsToLower query) "support") = true := by
      rcases hlang with h | h <;> simp [h]
    have hisEmpty : (languagesOf (top :: rest)).isEmpty = false := by
      cases hlo : languagesOf (top :: rest) with
      | nil => exact absurd hlo hne
      | cons a l => rfl
    constructor <;>
      simp [generateAnswer,
        hhas "password reset" (by decide), hhas "reset password" (by decide),
        hhas "forgot password" (by decide), hhas "login" (by decide),
        hhas "authentication" (by decide), hhas "auth" (by decide),
        hhas "api" (by decide), hhas "endpoint" (by decide),
        hhas "route" (by decide), hhas "database" (by decide),
        hhas "model" (by decide), hhas "schema" (by decide),
        hhas "component" (by decide), hhas "ui" (by decide),
        hhas "frontend" (by decide), hL, hisEmpty]

/-- C7 is false as stated: the query `"support password reset"` mentions
"support", yet `generateAnswer` takes the password-reset branch (tried
first in the source): its confidence is `min(1/50, 1) = 1/50`, not the
language branch's fixed `0.9`, and no `languages` field is returned. -/
theorem C7_counterexample :
    jsIncludes (jsToLower "support password reset") "support" = true ∧
    jsIncludes (jsToLower "support password reset") "password reset" = true ∧
    (generateAnswer "support password reset" [resReset]).confidence = 1 / 50 ∧
    (generateAnswer "support password reset" [resReset]).confidence ≠ 9 / 10 ∧
    (generateAnswer "support password reset" [resReset]).languages = none := by
  have h1 : (generateAnswer "support password reset" [resReset]).confidence =
      min ((resReset.score : ℚ) / 50) 1 := rfl
  have h2 : ((resReset.score : Nat) : ℚ) = 1 := by norm_num [resReset]
  refine ⟨rfl, rfl, ?_, ?_, rfl⟩
  · rw [h1, h2, min_eq_left (by norm_num)]
  · rw [h1, h2, min_eq_left (by norm_num)]
    norm_num

/-- Witness for `C7_branch_order` at a concrete language query. -/
theorem C7_witness :
    (generateAnswer "what languages are supported" [resReset]).confidence = 9 / 10 ∧
    (generateAnswer "what languages are supported" [resReset]).languages =
      some (languagesOf [resReset]) :=
  C7_branch_order "what languages are supported" [resReset]
    (Or.inl (by decide)) (by decide) (by decide)

/-- C8: synthesizing over an empty result list returns the fixed
"couldn't find" answer with confidence exactly 0, and for every non-empty
result list whose query hits no special-case branch the returned confidence
is `min(topResult.score / 50, 1)`. -/
theorem C8_confidence :
    (∀ query : String, generateAnswer query [] =
      { answer := "I couldn't find any relevant information about that in the knowledge base."
        confidence := 0 }) ∧
    (∀ (query : String) (top : SearchResult) (rest : List SearchResult),
      mentionsAnyOf query specialTriggerWords = false →
      (generateAnswer query (top :: rest)).confidence = min ((top.score : ℚ) / 50) 1) := by
  constructor
  · intro query
    rfl
  · intro query top rest hno
    have hhas : ∀ w ∈ specialTriggerWords, jsIncludes (jsToLower query) w = false := by
      intro w hw
      have := List.any_eq_false.mp (by simpa [mentionsAnyOf] using hno) w hw
      simpa using this
    simp [generateAnswer,
      hhas "password reset" (by decide), hhas "reset password" (by decide),
      hhas "forgot password" (by decide), hhas "login" (by decide),
      hhas "authentication" (by decide), hhas "auth" (by decide),
      hhas "api" (by decide), hhas "endpoint" (by decide),
      hhas "route" (by decide), hhas "database" (by decide),
      hhas "model" (by decide), hhas "schema" (by decide),
      hhas "component" (by decide), hhas "ui" (by decide),
      hhas "frontend" (by decide), hhas "language" (by decide),
      hhas "support" (by decide)]

/-- Witness for `C8_confidence` at the concrete query `"zzz"`. -/
theorem C8_witness :
    generateAnswer "zzz" [] =
      { answer := "I couldn't find any relevant information about that in the knowledge base."
        confidence := 0 } ∧
    (generateAnswer "zzz" [resReset]).confidence = min ((resReset.score : ℚ) / 50) 1 :=
  ⟨C8_confidence.1 "zzz", C8_confidence.2 "zzz" resReset [] (by decide)⟩

/-- Witness for `C10_snippets_nonempty` at the concrete query `"hello zz"`. -/
theorem C10_witness : resHello.contextSnippets ≠ [] := by
  have hscan : searchScan kbHello "hello zz" = .ok [resHello] := rfl
  have hsearch : search kbHello "hello zz" 10 = .ok [resHello] := by
    unfold search
    rw [hscan]
    simp [sortResults, effLimit]
  exact C10_snippets_nonempty kbHello "hello zz" 10 [resHello] hsearch resHello (by simp)

end SrcToKB
